import Mathlib

/-!
Verification of the better_rover signal-classification engine.

The development shallowly embeds the algorithmic core of the repository:

* `src/access_point_classifier.py` — `AccessPointClassifier.classify`,
  `AccessPointClassifier._compute_static_ap_coords`;
* `src/co_traveler_analysis.py` — the Step-5 grouping/classification loop,
  `cluster_records`, and the Step-6 static-coordinate computation;
* `src/flagged_signals_analysis.py` — `compute_max_distance` and the
  per-MAC flagging/confidence loop in `main`;
* `BR-Lite/FIDIM/static_aggregate.py` — the Step-4 weighted average.

Coordinates, RSSI values, timestamps and distances are embedded as
rationals.  The haversine Distance Primitive itself is transcendental
floating-point trigonometry, so every component that consumes it is
embedded parameterised over an arbitrary distance function
`d : Coord → Coord → ℚ`, exactly as the Python code is parameterised over
its `haversine` helper; concrete witnesses instantiate `d` with the
computable squared-planar surrogate `sqDist`, which shares the
properties of haversine that the classification logic consumes (zero on
the diagonal, symmetry, non-negativity).  Missing values (`NaN` RSSI, `NaT`
timestamps) are embedded as `Option ℚ`.
-/

/-- A latitude/longitude pair in decimal degrees (embedded as rationals). -/
abbrev Coord : Type := ℚ × ℚ

/-- The three classification labels produced by both classifiers
(`"static"`, `"co-traveler"`, `"unknown"` strings in the source). -/
inductive Label where
  | static
  | cotraveler
  | unknown
deriving DecidableEq, Repr

/-- One detection row as seen by the per-group classification loops:
its coordinates, its parsed timestamp (`time_dt`; `none` embeds `NaT`,
i.e. an unparseable timestamp) and its RSSI (`none` embeds a missing
value). -/
structure Detection where
  coord : Coord
  time : Option ℚ
  rssi : Option ℚ
deriving DecidableEq, Repr

/-- Computable stand-in distance used to instantiate the distance-function
parameter in concrete witnesses: the squared planar distance, a
small-angle surrogate for the haversine Distance Primitive.  Like
haversine it is symmetric, non-negative, and zero exactly on coincident
inputs, which is all the classification logic consumes. -/
def sqDist (p q : Coord) : ℚ := (p.1 - q.1) ^ 2 + (p.2 - q.2) ^ 2

/-- All unordered pairs `(i, j)` with `i < j` of a list, in the order the
double loop of the source `for i in range(n): for j in range(i+1, n)` visits
them. -/
def pairs {α : Type} : List α → List (α × α)
  | [] => []
  | x :: xs => xs.map (fun y => (x, y)) ++ pairs xs

/-- The pairwise distances computed by the double loop of a classifier. -/
def pairDists (d : Coord → Coord → ℚ) (coords : List Coord) : List ℚ :=
  (pairs coords).map (fun pq => d pq.1 pq.2)

/-- The running maximum of `AccessPointClassifier.classify`
(`access_point_classifier.py` lines 243–244): `max_dist` starts as
`None` and is replaced whenever it is `None` or the new distance is
strictly larger. -/
def foldMaxOpt : List ℚ → Option ℚ → Option ℚ
  | [], acc => acc
  | x :: xs, acc =>
      foldMaxOpt xs
        (match acc with
         | none => some x
         | some m => if x > m then some x else some m)

/-- The `max_dist` value of `AccessPointClassifier.classify` lines
239–244: `None` unless the group has more than one coordinate, otherwise
the fold over all distinct pairs. -/
def apMaxDist (d : Coord → Coord → ℚ) (coords : List Coord) : Option ℚ :=
  if coords.length > 1 then foldMaxOpt (pairDists d coords) none else none

/-- The per-detection weight of
`AccessPointClassifier._compute_static_ap_coords` lines 323–324:
missing RSSI is filled with `-130`, then `weights = max(0, 130 + rssi)`. -/
def apWeight (r : Option ℚ) : ℚ := max 0 (130 + r.getD (-130))

/-- `AccessPointClassifier._compute_static_ap_coords` (lines 316–334):
RSSI-weighted centroid; when the total weight is falsy (zero) the
unweighted mean of the coordinates is used instead. -/
def compute_static_ap_coords (rows : List (Coord × Option ℚ)) : Coord :=
  let ws := rows.map (fun pr => apWeight pr.2)
  let total := ws.sum
  if total ≠ 0 then
    (((rows.map (fun pr => apWeight pr.2 * pr.1.1)).sum) / total,
     ((rows.map (fun pr => apWeight pr.2 * pr.1.2)).sum) / total)
  else
    (((rows.map (fun pr => pr.1.1)).sum) / rows.length,
     ((rows.map (fun pr => pr.1.2)).sum) / rows.length)

/-- The pandas `Series.min` used for `first_seen` in
`AccessPointClassifier.classify` line 258: null entries are skipped and
the result is null only when every entry is. -/
def seriesMin (l : List (Option ℚ)) : Option ℚ :=
  l.foldl
    (fun acc x =>
      match acc, x with
      | none, v => v
      | some m, none => some m
      | some m, some v => some (min m v))
    none

/-- The pandas `Series.max` used for `last_seen` in
`AccessPointClassifier.classify` line 259. -/
def seriesMax (l : List (Option ℚ)) : Option ℚ :=
  l.foldl
    (fun acc x =>
      match acc, x with
      | none, v => v
      | some m, none => some m
      | some m, some v => some (max m v))
    none

/-- The per-group record assembled by `AccessPointClassifier.classify`:
classification, the `lat`/`lon` columns (`none` embeds the empty strings
written for co-travelers), `max_dist`, and `first_seen`/`last_seen`. -/
structure APResult where
  cls : Label
  loc : Option Coord
  maxDist : Option ℚ
  firstSeen : Option ℚ
  lastSeen : Option ℚ
deriving DecidableEq, Repr

/-- The body of the per-group loop of `AccessPointClassifier.classify`
(`access_point_classifier.py` lines 230–266).  The defaults are
`cls = "unknown"`, `max_dist = None` and the statically-weighted
coordinates; the Python guard `if max_dist:` is falsy both for `None`
and for the float `0.0`, and only the co-traveler branch clears the
coordinates. -/
def ap_classify_group (d : Coord → Coord → ℚ) (rows : List Detection) : APResult :=
  let coords := rows.map (fun r => r.coord)
  let md := apMaxDist d coords
  let base := compute_static_ap_coords (rows.map (fun r => (r.coord, r.rssi)))
  let clsLoc : Label × Option Coord :=
    match md with
    | none => (Label.unknown, some base)
    | some m =>
        if m ≠ 0 then
          if m ≥ 1000 then (Label.cotraveler, none)
          else if m ≤ 300 then (Label.static, some base)
          else (Label.unknown, some base)
        else (Label.unknown, some base)
  { cls := clsLoc.1
    loc := clsLoc.2
    maxDist := md
    firstSeen := seriesMin (rows.map (fun r => r.time))
    lastSeen := seriesMax (rows.map (fun r => r.time)) }

/-- The Python comparison on possibly-`NaT` timestamps: `NaT` compares
false against everything (including itself), so only two parsed values
ever compare. -/
def pyLt : Option ℚ → Option ℚ → Bool
  | some a, some b => decide (a < b)
  | _, _ => false

/-- The Python builtin `min` over the raw `time_dt` list
(`co_traveler_analysis.py` line 280): fold keeping the current value
unless the candidate compares strictly smaller.  Empty groups never
occur (builtin `min` would raise). -/
def pyMin : List (Option ℚ) → Option ℚ
  | [] => none
  | x :: xs => xs.foldl (fun acc y => if pyLt y acc then y else acc) x

/-- The Python builtin `max` over the raw `time_dt` list
(`co_traveler_analysis.py` line 281). -/
def pyMax : List (Option ℚ) → Option ℚ
  | [] => none
  | x :: xs => xs.foldl (fun acc y => if pyLt acc y then y else acc) x

/-- The single pass of `co_traveler_analysis.py` lines 266–272 over the
pair distances, threading the `is_cotraveler` flag and the running
maximum `max_dist` (initialised to `0`). -/
def ctScan : List ℚ → Bool × ℚ → Bool × ℚ
  | [], s => s
  | x :: xs, s =>
      ctScan xs
        (if x ≥ 1000 then true else s.1,
         if x > s.2 then x else s.2)

/-- The per-group record assembled by Step 5 of
`co_traveler_analysis.py`: classification, `group_max` (`0` for groups
with fewer than two coordinates), and `first seen`/`last seen`. -/
structure CTResult where
  cls : Label
  groupMax : ℚ
  firstSeen : Option ℚ
  lastSeen : Option ℚ
deriving DecidableEq, Repr

/-- The body of the Step-5 grouping loop of `co_traveler_analysis.py`
(lines 252–290): fewer than two coordinates is `unknown` with
`group_max = 0`; otherwise the flag/maximum scan runs over all distinct
pairs and the flag decides co-traveler first, then `max_dist <= 300`
decides static. -/
def ct_classify_group (d : Coord → Coord → ℚ) (rows : List Detection) : CTResult :=
  let coords := rows.map (fun r => r.coord)
  let times := rows.map (fun r => r.time)
  if coords.length < 2 then
    { cls := Label.unknown
      groupMax := 0
      firstSeen := pyMin times
      lastSeen := pyMax times }
  else
    let s := ctScan (pairDists d coords) (false, 0)
    { cls :=
        if s.1 then Label.cotraveler
        else if s.2 ≤ 300 then Label.static
        else Label.unknown
      groupMax := s.2
      firstSeen := pyMin times
      lastSeen := pyMax times }

/-- Reference classification function, modelled from the words of the spec
(§4.3–§4.4 and claim C1): fewer than two valid-coordinate detections is
`UNKNOWN` with spread `0`; otherwise spread `≥ 1000` is `CO_TRAVELER`,
else spread `≤ 300` is `STATIC`, else `UNKNOWN`.  Used only to compare
the source classifiers against the specified behaviour. -/
def refClassify (d : Coord → Coord → ℚ) (coords : List Coord) : Label × ℚ :=
  if coords.length < 2 then (Label.unknown, 0)
  else
    match pairDists d coords with
    | [] => (Label.unknown, 0)
    | x :: xs =>
        let m := xs.foldl max x
        if m ≥ 1000 then (Label.cotraveler, m)
        else if m ≤ 300 then (Label.static, m)
        else (Label.unknown, m)

/-- The mean-of-members centroid recomputation of `cluster_records`
(`co_traveler_analysis.py` lines 93–94). -/
def centroid (recs : ℕ → Coord) (cluster : List ℕ) : Coord :=
  (((cluster.map (fun i => (recs i).1)).sum) / cluster.length,
   ((cluster.map (fun i => (recs i).2)).sum) / cluster.length)

/-- One scan of the worklist against the current centroid
(`co_traveler_analysis.py` lines 83–91): indices within the threshold
join the cluster in scan order, the rest stay in the worklist in their
original order. -/
def scanPass (p : ℕ → Bool) : List ℕ → List ℕ × List ℕ
  | [] => ([], [])
  | i :: is =>
      let r := scanPass p is
      if p i then (i :: r.1, r.2) else (r.1, i :: r.2)

theorem scanPass_length (p : ℕ → Bool) (l : List ℕ) :
    (scanPass p l).1.length + (scanPass p l).2.length = l.length := by
  induction l with
  | nil => rfl
  | cons i is ih =>
      simp only [scanPass]
      by_cases h : p i <;> simp [h] <;> omega

theorem scanPass_perm (p : ℕ → Bool) (l : List ℕ) :
    List.Perm ((scanPass p l).1 ++ (scanPass p l).2) l := by
  induction l with
  | nil => simp [scanPass]
  | cons i is ih =>
      simp only [scanPass]
      by_cases h : p i
      · simpa [h] using ih.cons i
      · simp only [h, if_neg]
        simp only [Bool.false_eq_true, if_false]
        exact ((ih.cons i).trans (List.Perm.refl _)).symm.trans
          (List.perm_middle.symm) |>.symm

/-- The inner re-scan loop of `cluster_records`
(`co_traveler_analysis.py` lines 77–94), started with the seeded
cluster and the seed point as centre: each pass joins every remaining
index within the threshold of the current centre; if a pass joined
nothing the loop ends (the final centre recomputation is then a no-op),
otherwise the centre becomes the mean of the enlarged cluster and the
scan repeats.  Returns the finished cluster and the remaining
worklist. -/
def growCluster (d : Coord → Coord → ℚ) (thr : ℚ) (recs : ℕ → Coord)
    (cluster : List ℕ) (center : Coord) (indices : List ℕ) : List ℕ × List ℕ :=
  if (scanPass (fun i => decide (d center (recs i) ≤ thr)) indices).1 = [] then
    (cluster, indices)
  else
    growCluster d thr recs
      (cluster ++ (scanPass (fun i => decide (d center (recs i) ≤ thr)) indices).1)
      (centroid recs
        (cluster ++ (scanPass (fun i => decide (d center (recs i) ≤ thr)) indices).1))
      (scanPass (fun i => decide (d center (recs i) ≤ thr)) indices).2
termination_by indices.length
decreasing_by
  have h := scanPass_length (fun i => decide (d center (recs i) ≤ thr)) indices
  have h1 : (scanPass (fun i => decide (d center (recs i) ≤ thr)) indices).1.length ≠ 0 := by
    intro hc
    exact absurd (List.length_eq_zero.mp hc) (by assumption)
  omega

theorem growCluster_snd_length (d : Coord → Coord → ℚ) (thr : ℚ) (recs : ℕ → Coord)
    (cluster : List ℕ) (center : Coord) (indices : List ℕ) :
    (growCluster d thr recs cluster center indices).2.length ≤ indices.length := by
  induction cluster, center, indices using growCluster.induct d thr recs with
  | case1 cluster center indices h =>
      rw [growCluster, if_pos h]
  | case2 cluster center indices h ih =>
      rw [growCluster, if_neg h]
      have hlen := scanPass_length (fun i => decide (d center (recs i) ≤ thr)) indices
      have h1 : (scanPass (fun i => decide (d center (recs i) ≤ thr)) indices).1.length ≠ 0 :=
        fun hc => absurd (List.length_eq_zero.mp hc) h
      exact le_trans ih (by omega)

/-- The greedy Spatial Clusterer `cluster_records`
(`co_traveler_analysis.py` lines 72–96): pop the first worklist index to
seed a cluster centred on its own point, grow it with the re-scan loop,
then repeat on the remaining worklist.  `recs` maps an index to its
coordinates (the dataframe lookup `records.loc[idx, ...]`). -/
def cluster_records (d : Coord → Coord → ℚ) (thr : ℚ) (recs : ℕ → Coord)
    (l : List ℕ) : List (List ℕ) :=
  match l with
  | [] => []
  | i :: rest =>
      (growCluster d thr recs [i] (recs i) rest).1 ::
        cluster_records d thr recs (growCluster d thr recs [i] (recs i) rest).2
termination_by l.length
decreasing_by
  simp_wf
  have h := growCluster_snd_length d thr recs [i] (recs i) is
  omega

/-- One input row of `flagged_signals_analysis.py` after column
normalisation: MAC, SSID, the parsed timestamp (`none` embeds a failed
`to_datetime` conversion) and coordinates. -/
structure FlagRow where
  mac : String
  ssid : String
  time : Option ℚ
  coord : Coord
deriving DecidableEq, Repr

/-- The `dropna(subset=df.time_dt)` step of `flagged_signals_analysis.py`
line 114: rows whose timestamp failed to parse are removed from the
dataframe before any grouping. -/
def validRows (rows : List FlagRow) : List FlagRow :=
  rows.filter (fun r => r.time.isSome)

/-- `compute_max_distance` of `flagged_signals_analysis.py` lines 39–51:
`0` for fewer than two coordinate rows, otherwise the double-loop
maximum starting from `0`. -/
def compute_max_distance (d : Coord → Coord → ℚ) (coords : List Coord) : ℚ :=
  if coords.length < 2 then 0
  else (pairDists d coords).foldl (fun m x => if x > m then x else m) 0

/-- The confidence score of `flagged_signals_analysis.py` lines 148–151,
in exact rational arithmetic:
`(0.3·count_factor + 0.4·distance_factor + 0.3·time_factor) × 100`. -/
def confidenceScore (n : ℕ) (dmax t : ℚ) : ℚ :=
  (3/10 * min ((n : ℚ) / 20) 1
   + 2/5 * min (max ((dmax - 300) / 9700) 0) 1
   + 3/10 * min (t / 12) 1) * 100

/-- One output record of the flagged-signals loop: key MAC, aggregated
distinct SSIDs, detection count, maximum spread, time range in hours,
first/last seen, and the confidence score. -/
structure FlagRecord where
  mac : String
  ssids : List String
  detections : ℕ
  maxDist : ℚ
  timeRange : ℚ
  firstSeen : ℚ
  lastSeen : ℚ
  confidence : ℚ
deriving DecidableEq, Repr

/-- The per-MAC body of the flagged-signals loop
(`flagged_signals_analysis.py` lines 120–165): the group is every
surviving row carrying the MAC; empty groups are skipped, as are groups
whose maximum spread is below 300 m; otherwise the record aggregates
count, distinct SSIDs, the time range in hours, and the confidence. -/
def flagGroup (d : Coord → Coord → ℚ) (rows : List FlagRow) (mac : String) :
    Option FlagRecord :=
  let g := (validRows rows).filter (fun r => r.mac = mac)
  match g.filterMap (fun r => r.time) with
  | [] => none
  | t :: ts =>
      let firstSeen := ts.foldl min t
      let lastSeen := ts.foldl max t
      let timeRange := (lastSeen - firstSeen) / 3600
      let md := compute_max_distance d (g.map (fun r => r.coord))
      if md < 300 then none
      else
        some
          { mac := mac
            ssids := (g.map (fun r => r.ssid)).dedup
            detections := g.length
            maxDist := md
            timeRange := timeRange
            firstSeen := firstSeen
            lastSeen := lastSeen
            confidence := confidenceScore g.length md timeRange }

/-- The whole flagged-signals analysis after row normalisation
(`flagged_signals_analysis.py` lines 110–165): drop rows with
unparseable timestamps, group the survivors by MAC address alone, and
keep a record per flagged MAC.  (pandas iterates group keys in sorted
order; the key list is embedded in first-occurrence order, which no
claim distinguishes.) -/
def flaggedAnalyze (d : Coord → Coord → ℚ) (rows : List FlagRow) : List FlagRecord :=
  (((validRows rows).map (fun r => r.mac)).dedup).filterMap (flagGroup d rows)

/-- The per-detection weight of `static_aggregate.py` line 117:
`max(0, 130 + RSSI)` when the RSSI parsed, fallback weight `1`
otherwise. -/
def aggWeight (r : Option ℚ) : ℚ :=
  match r with
  | some x => max 0 (130 + x)
  | none => 1

/-- The Step-4 weighted average of `static_aggregate.py` lines 115–124:
weights as in `aggWeight`, weighted centroid when the total weight is
positive, unweighted mean otherwise. -/
def static_aggregate_coords (rows : List (Coord × Option ℚ)) : Coord :=
  let total := (rows.map (fun pr => aggWeight pr.2)).sum
  if total > 0 then
    (((rows.map (fun pr => aggWeight pr.2 * pr.1.1)).sum) / total,
     ((rows.map (fun pr => aggWeight pr.2 * pr.1.2)).sum) / total)
  else
    (((rows.map (fun pr => pr.1.1)).sum) / rows.length,
     ((rows.map (fun pr => pr.1.2)).sum) / rows.length)

/-- Reference location estimator, modelled from the words of the spec (§4.5):
per-detection weight `max(0, 130 + rssi)` when RSSI is present and the
configured fallback weight `fb` otherwise; `best_location` is the
weighted centroid, except that a total weight of `0` falls back to the
unweighted arithmetic mean.  Used only to compare the two source
implementations (fallback policies `0` and `1`) against the specified
behaviour.  First the per-detection weight. -/
def refWeight (fb : ℚ) : Option ℚ → ℚ
  | some x => max 0 (130 + x)
  | none => fb

/-- Reference location estimator, continued: the centroid itself. -/
def refStaticCoords (fb : ℚ) (rows : List (Coord × Option ℚ)) : Coord :=
  let total := (rows.map (fun pr => refWeight fb pr.2)).sum
  if total = 0 then
    (((rows.map (fun pr => pr.1.1)).sum) / rows.length,
     ((rows.map (fun pr => pr.1.2)).sum) / rows.length)
  else
    (((rows.map (fun pr => refWeight fb pr.2 * pr.1.1)).sum) / total,
     ((rows.map (fun pr => refWeight fb pr.2 * pr.1.2)).sum) / total)

theorem ite_gt_eq_max (m x : ℚ) : (if x > m then x else m) = max m x := by
  rcases le_or_lt x m with h | h
  · rw [if_neg (not_lt_of_le h), max_eq_left h]
  · rw [if_pos h, max_eq_right h.le]

theorem foldl_ite_gt_eq_foldl_max (l : List ℚ) (a : ℚ) :
    l.foldl (fun m x => if x > m then x else m) a = l.foldl max a := by
  induction l generalizing a with
  | nil => rfl
  | cons x xs ih => simp only [List.foldl_cons, ite_gt_eq_max, ih]

theorem foldMaxOpt_some (l : List ℚ) (a : ℚ) :
    foldMaxOpt l (some a) = some (l.foldl max a) := by
  induction l generalizing a with
  | nil => rfl
  | cons x xs ih =>
      have hstep : (if x > a then some x else some a) = some (max a x) := by
        rw [← ite_gt_eq_max]
        exact (apply_ite some (x > a) x a).symm
      simp only [foldMaxOpt, List.foldl_cons, hstep, ih]

theorem foldMaxOpt_cons_none (x : ℚ) (xs : List ℚ) :
    foldMaxOpt (x :: xs) none = some (xs.foldl max x) := by
  simp only [foldMaxOpt]
  exact foldMaxOpt_some xs x

theorem init_le_foldl_max (l : List ℚ) (a : ℚ) : a ≤ l.foldl max a := by
  induction l generalizing a with
  | nil => exact le_refl a
  | cons x xs ih => exact le_trans (le_max_left a x) (ih (max a x))

theorem mem_le_foldl_max (l : List ℚ) : ∀ (a x : ℚ), x ∈ l → x ≤ l.foldl max a := by
  induction l with
  | nil => intro a x hx; cases hx
  | cons y ys ih =>
      intro a x hx
      rcases List.mem_cons.mp hx with h | h
      · subst h
        exact le_trans (le_max_right a x) (init_le_foldl_max ys (max a x))
      · exact ih (max a y) x h

theorem foldl_max_mem (l : List ℚ) (a : ℚ) :
    l.foldl max a = a ∨ l.foldl max a ∈ l := by
  induction l generalizing a with
  | nil => exact Or.inl rfl
  | cons x xs ih =>
      rcases ih (max a x) with h | h
      · rcases max_cases a x with ⟨he, _⟩ | ⟨he, _⟩
        · rw [List.foldl_cons] at *
          rw [h, he]
          exact Or.inl rfl
        · rw [List.foldl_cons] at *
          rw [h, he]
          exact Or.inr (List.mem_cons_self x xs)
      · exact Or.inr (List.mem_cons_of_mem x h)

theorem foldl_max_init_max (l : List ℚ) (a b : ℚ) :
    l.foldl max (max a b) = max a (l.foldl max b) := by
  induction l generalizing b with
  | nil => rfl
  | cons x xs ih =>
      simp only [List.foldl_cons, max_assoc]
      exact ih (max b x)

theorem foldl_min_le_init (l : List ℚ) (a : ℚ) : l.foldl min a ≤ a := by
  induction l generalizing a with
  | nil => exact le_refl a
  | cons x xs ih => exact le_trans (ih (min a x)) (min_le_left a x)

theorem any_ge_iff_foldl_max (x : ℚ) (xs : List ℚ) :
    ((x :: xs).any (fun y => decide (1000 ≤ y)) = true) ↔ 1000 ≤ xs.foldl max x := by
  constructor
  · intro h
    rcases List.any_eq_true.mp h with ⟨y, hy, hge⟩
    have hge : (1000 : ℚ) ≤ y := of_decide_eq_true hge
    rcases List.mem_cons.mp hy with h0 | h0
    · subst h0
      exact le_trans hge (init_le_foldl_max xs y)
    · exact le_trans hge (mem_le_foldl_max xs x y h0)
  · intro h
    apply List.any_eq_true.mpr
    rcases foldl_max_mem xs x with he | he
    · exact ⟨x, List.mem_cons_self x xs, decide_eq_true (he ▸ h)⟩
    · exact ⟨xs.foldl max x, List.mem_cons_of_mem x he, decide_eq_true h⟩

theorem ctScan_eq (l : List ℚ) (b : Bool) (m : ℚ) :
    ctScan l (b, m) = (b || l.any (fun x => decide (1000 ≤ x)), l.foldl max m) := by
  induction l generalizing b m with
  | nil => simp [ctScan]
  | cons x xs ih =>
      simp only [ctScan, List.any_cons, List.foldl_cons, ih, ite_gt_eq_max]
      refine Prod.ext ?_ rfl
      rcases le_or_lt 1000 x with h | h
      · simp [if_pos h, decide_eq_true h]
      · simp [if_neg (not_le_of_lt h), decide_eq_false (not_le_of_lt h)]

/-- Minimum over exactly the parseable timestamps, modelled from the
words of the spec (§3 Classification Result and §7: min of valid timestamps,
absent if none parse).  Comparison target for the three source
implementations. -/
def parseMin (l : List (Option ℚ)) : Option ℚ :=
  match l.filterMap id with
  | [] => none
  | t :: ts => some (ts.foldl min t)

/-- Maximum over exactly the parseable timestamps, modelled from the
words of the spec (§3 and §7). -/
def parseMax (l : List (Option ℚ)) : Option ℚ :=
  match l.filterMap id with
  | [] => none
  | t :: ts => some (ts.foldl max t)

theorem seriesMin_go (l : List (Option ℚ)) (m : ℚ) :
    l.foldl
      (fun acc x =>
        match acc, x with
        | none, v => v
        | some m, none => some m
        | some m, some v => some (min m v))
      (some m) = some ((l.filterMap id).foldl min m) := by
  induction l generalizing m with
  | nil => rfl
  | cons x xs ih =>
      cases x with
      | none => simpa using ih m
      | some v => simpa using ih (min m v)

theorem seriesMin_eq_parseMin (l : List (Option ℚ)) : seriesMin l = parseMin l := by
  induction l with
  | nil => rfl
  | cons x xs ih =>
      cases x with
      | none => simpa [seriesMin, parseMin] using ih
      | some v =>
          simp only [seriesMin, parseMin, List.foldl_cons, List.filterMap_cons_some, id]
          exact seriesMin_go xs v

theorem seriesMax_go (l : List (Option ℚ)) (m : ℚ) :
    l.foldl
      (fun acc x =>
        match acc, x with
        | none, v => v
        | some m, none => some m
        | some m, some v => some (max m v))
      (some m) = some ((l.filterMap id).foldl max m) := by
  induction l generalizing m with
  | nil => rfl
  | cons x xs ih =>
      cases x with
      | none => simpa using ih m
      | some v => simpa using ih (max m v)

theorem seriesMax_eq_parseMax (l : List (Option ℚ)) : seriesMax l = parseMax l := by
  induction l with
  | nil => rfl
  | cons x xs ih =>
      cases x with
      | none => simpa [seriesMax, parseMax] using ih
      | some v =>
          simp only [seriesMax, parseMax, List.foldl_cons, List.filterMap_cons_some, id]
          exact seriesMax_go xs v

theorem pyMin_none_stays (l : List (Option ℚ)) :
    l.foldl (fun acc y => if pyLt y acc then y else acc) none = none := by
  induction l with
  | nil => rfl
  | cons x xs ih =>
      have : pyLt x none = false := by cases x <;> rfl
      simpa [this] using ih

/-- The Python builtin `min` over the raw timestamp list returns
`NaT` whenever the first entry is `NaT`, regardless of any later
parseable timestamps. -/
theorem pyMin_none_head (ts : List (Option ℚ)) : pyMin (none :: ts) = none := by
  simp only [pyMin]
  exact pyMin_none_stays ts

theorem pyMin_some_go (l : List (Option ℚ)) (a : ℚ) :
    l.foldl (fun acc y => if pyLt y acc then y else acc) (some a)
      = some ((l.filterMap id).foldl min a) := by
  induction l generalizing a with
  | nil => rfl
  | cons x xs ih =>
      cases x with
      | none => simpa [pyLt] using ih a
      | some v =>
          have hstep : (if pyLt (some v) (some a) then some v else some a)
              = some (min a v) := by
            simp only [pyLt]
            rcases lt_or_le v a with h | h
            · rw [if_pos (by simpa using h), min_eq_right h.le]
            · rw [if_neg (by simpa using not_lt_of_le h), min_eq_left h]
          simpa [hstep] using ih (min a v)

/-- With a parseable first entry, the Python builtin `min` over the raw
timestamp list is the minimum of the parseable entries. -/
theorem pyMin_some_head (a : ℚ) (ts : List (Option ℚ)) :
    pyMin (some a :: ts) = some ((ts.filterMap id).foldl min a) := by
  simp only [pyMin]
  exact pyMin_some_go ts a

theorem pyMax_none_stays (l : List (Option ℚ)) :
    l.foldl (fun acc y => if pyLt acc y then y else acc) none = none := by
  induction l with
  | nil => rfl
  | cons x xs ih =>
      have : pyLt none x = false := by cases x <;> rfl
      simpa [this] using ih

/-- The Python builtin `max` over the raw timestamp list returns
`NaT` whenever the first entry is `NaT`. -/
theorem pyMax_none_head (ts : List (Option ℚ)) : pyMax (none :: ts) = none := by
  simp only [pyMax]
  exact pyMax_none_stays ts

theorem pyMax_some_go (l : List (Option ℚ)) (a : ℚ) :
    l.foldl (fun acc y => if pyLt acc y then y else acc) (some a)
      = some ((l.filterMap id).foldl max a) := by
  induction l generalizing a with
  | nil => rfl
  | cons x xs ih =>
      cases x with
      | none => simpa [pyLt] using ih a
      | some v =>
          have hstep : (if pyLt (some a) (some v) then some v else some a)
              = some (max a v) := by
            simp only [pyLt]
            rcases lt_or_le a v with h | h
            · rw [if_pos (by simpa using h), max_eq_right h.le]
            · rw [if_neg (by simpa using not_lt_of_le h), max_eq_left h]
          simpa [hstep] using ih (max a v)

/-- With a parseable first entry, the Python builtin `max` over the raw
timestamp list is the maximum of the parseable entries. -/
theorem pyMax_some_head (a : ℚ) (ts : List (Option ℚ)) :
    pyMax (some a :: ts) = some ((ts.filterMap id).foldl max a) := by
  simp only [pyMax]
  exact pyMax_some_go ts a

theorem growCluster_perm (d : Coord → Coord → ℚ) (thr : ℚ) (recs : ℕ → Coord)
    (cluster : List ℕ) (center : Coord) (indices : List ℕ) :
    List.Perm
      ((growCluster d thr recs cluster center indices).1 ++
        (growCluster d thr recs cluster center indices).2)
      (cluster ++ indices) := by
  induction cluster, center, indices using growCluster.induct d thr recs with
  | case1 cluster center indices h =>
      rw [growCluster, if_pos h]
  | case2 cluster center indices h ih =>
      rw [growCluster, if_neg h]
      refine ih.trans ?_
      rw [List.append_assoc]
      exact (List.Perm.append_left cluster
        (scanPass_perm (fun i => decide (d center (recs i) ≤ thr)) indices))

theorem growCluster_fst_ne_nil (d : Coord → Coord → ℚ) (thr : ℚ) (recs : ℕ → Coord)
    (cluster : List ℕ) (center : Coord) (indices : List ℕ) (hc : cluster ≠ []) :
    (growCluster d thr recs cluster center indices).1 ≠ [] := by
  induction cluster, center, indices using growCluster.induct d thr recs with
  | case1 cluster center indices h =>
      rw [growCluster, if_pos h]
      exact hc
  | case2 cluster center indices h ih =>
      rw [growCluster, if_neg h]
      exact ih (by simp [hc])

/-- Clustering completeness: the members of all output clusters are a
permutation of the input worklist — no detection is lost and none is
duplicated. -/
theorem cluster_records_flatten_perm (d : Coord → Coord → ℚ) (thr : ℚ)
    (recs : ℕ → Coord) (l : List ℕ) :
    List.Perm (cluster_records d thr recs l).flatten l := by
  induction l using cluster_records.induct d thr recs with
  | case1 => simp [cluster_records]
  | case2 i rest ih =>
      rw [cluster_records]
      simp only [List.flatten_cons]
      refine List.Perm.trans (List.Perm.append_left _ ih) ?_
      exact growCluster_perm d thr recs [i] (recs i) rest

theorem cluster_records_ne_nil (d : Coord → Coord → ℚ) (thr : ℚ)
    (recs : ℕ → Coord) (l : List ℕ) :
    ∀ c ∈ cluster_records d thr recs l, c ≠ [] := by
  induction l using cluster_records.induct d thr recs with
  | case1 => simp [cluster_records]
  | case2 i rest ih =>
      rw [cluster_records]
      intro c hc
      rcases List.mem_cons.mp hc with h | h
      · subst h
        exact growCluster_fst_ne_nil d thr recs [i] (recs i) rest (by simp)
      · exact ih c h

theorem length_le_flatten_length (L : List (List ℕ)) (h : ∀ c ∈ L, c ≠ []) :
    L.length ≤ L.flatten.length := by
  induction L with
  | nil => simp
  | cons c cs ih =>
      simp only [List.length_cons, List.flatten_cons, List.length_append]
      have hc : c ≠ [] := h c (List.mem_cons_self c cs)
      have h1 : 1 ≤ c.length := by
        cases c with
        | nil => exact absurd rfl hc
        | cons a as => simp
      have := ih (fun x hx => h x (List.mem_cons_of_mem c hx))
      omega

theorem scanPass_all_false (p : ℕ → Bool) (l : List ℕ) (h : ∀ x ∈ l, p x = false) :
    scanPass p l = ([], l) := by
  induction l with
  | nil => rfl
  | cons i is ih =>
      simp only [scanPass, h i (List.mem_cons_self i is),
        ih (fun x hx => h x (List.mem_cons_of_mem i hx)), Bool.false_eq_true, if_false]

theorem centroid_singleton (recs : ℕ → Coord) (i : ℕ) : centroid recs [i] = recs i := by
  simp [centroid]

theorem cluster_records_separated (d : Coord → Coord → ℚ) (thr : ℚ)
    (recs : ℕ → Coord) (l : List ℕ) :
    l.Nodup → (∀ i ∈ l, ∀ j ∈ l, i ≠ j → thr < d (recs i) (recs j)) →
    cluster_records d thr recs l = l.map (fun i => [i]) := by
  induction l using cluster_records.induct d thr recs with
  | case1 =>
      intro _ _
      simp [cluster_records]
  | case2 i rest ih =>
      intro hnd hsep
      have hfalse : ∀ j ∈ rest, (fun j => decide (d (recs i) (recs j) ≤ thr)) j = false := by
        intro j hj
        have hne : i ≠ j := by
          intro he
          subst he
          exact (List.nodup_cons.mp hnd).1 hj
        have := hsep i (List.mem_cons_self i rest) j (List.mem_cons_of_mem i hj) hne
        simpa using not_le_of_lt this
      have hgrow : growCluster d thr recs [i] (recs i) rest = ([i], rest) := by
        rw [growCluster, if_pos]
        rw [scanPass_all_false _ rest hfalse]
      rw [cluster_records, hgrow]
      simp only [List.map_cons, List.cons.injEq, true_and]
      rw [hgrow] at ih
      exact ih (List.nodup_cons.mp hnd).2
        (fun a ha b hb hne =>
          hsep a (List.mem_cons_of_mem i ha) b (List.mem_cons_of_mem i hb) hne)

/-- C7: for every input detection set and merge threshold, the spatial
member lists output by the clusterer are a permutation of the input worklist:
their union is exactly the input, with no detection lost and none
appearing in more than one cluster. -/
theorem cluster_records_partitions_input (d : Coord → Coord → ℚ) (thr : ℚ)
    (recs : ℕ → Coord) (l : List ℕ) :
    List.Perm (cluster_records d thr recs l).flatten l :=
  cluster_records_flatten_perm d thr recs l

/-- C8: the spatial clusterer is a total function whose output is
bounded by the group size: every outer iteration commits at least the
seed (every output cluster is non-empty), so the number of clusters
never exceeds the worklist length.  Totality itself is witnessed by
`cluster_records` being a Lean function defined by well-founded
recursion on the strictly shrinking worklist. -/
theorem cluster_records_bounded (d : Coord → Coord → ℚ) (thr : ℚ)
    (recs : ℕ → Coord) (l : List ℕ) :
    (∀ c ∈ cluster_records d thr recs l, c ≠ []) ∧
    (cluster_records d thr recs l).length ≤ l.length := by
  refine ⟨cluster_records_ne_nil d thr recs l, ?_⟩
  calc (cluster_records d thr recs l).length
      ≤ (cluster_records d thr recs l).flatten.length :=
        length_le_flatten_length _ (cluster_records_ne_nil d thr recs l)
    _ = l.length := (cluster_records_flatten_perm d thr recs l).length_eq

theorem pairDists_cons2 (d : Coord → Coord → ℚ) (a b : Coord) (t : List Coord) :
    pairDists d (a :: b :: t)
      = d a b :: (t.map (fun y => d a y) ++ pairDists d (b :: t)) := by
  simp [pairDists, pairs]

/-- The classification label `AccessPointClassifier.classify` assigns,
as a function of the coordinate list alone. -/
def apCls (d : Coord → Coord → ℚ) (xs : List Coord) : Label :=
  match apMaxDist d xs with
  | none => Label.unknown
  | some m =>
      if m ≠ 0 then
        if m ≥ 1000 then Label.cotraveler
        else if m ≤ 300 then Label.static
        else Label.unknown
      else Label.unknown

/-- The classification label the Step-5 flag formulation assigns, as a
function of the coordinate list alone. -/
def ctCls (d : Coord → Coord → ℚ) (xs : List Coord) : Label :=
  if xs.length < 2 then Label.unknown
  else
    if (ctScan (pairDists d xs) (false, 0)).1 then Label.cotraveler
    else if (ctScan (pairDists d xs) (false, 0)).2 ≤ 300 then Label.static
    else Label.unknown

theorem ap_classify_group_cls (d : Coord → Coord → ℚ) (rows : List Detection) :
    (ap_classify_group d rows).cls = apCls d (rows.map (fun r => r.coord)) := by
  simp only [ap_classify_group, apCls]
  rcases hmd : apMaxDist d (rows.map (fun r => r.coord)) with _ | m
  · simp only [hmd]
  · simp only [hmd]
    by_cases h0 : m = 0
    · simp [h0]
    · simp only [h0, ne_eq, not_false_eq_true, if_true]
      by_cases h1 : m ≥ 1000
      · simp [h1]
      · by_cases h3 : m ≤ 300 <;> simp [h1, h3]

theorem ct_classify_group_cls (d : Coord → Coord → ℚ) (rows : List Detection) :
    (ct_classify_group d rows).cls = ctCls d (rows.map (fun r => r.coord)) := by
  simp only [ct_classify_group, ctCls, List.length_map]
  by_cases hlen : rows.length < 2
  · simp [hlen]
  · simp [hlen]

theorem ctCls_eq_apCls (d : Coord → Coord → ℚ) (xs : List Coord)
    (h : apMaxDist d xs ≠ some 0) : ctCls d xs = apCls d xs := by
  rcases xs with _ | ⟨a, _ | ⟨b, t⟩⟩
  · simp [ctCls, apCls, apMaxDist]
  · simp [ctCls, apCls, apMaxDist]
  · have hlen : ¬ (a :: b :: t).length < 2 := by simp
    have hgt : (a :: b :: t).length > 1 := by simp
    have hpd := pairDists_cons2 d a b t
    set rest := t.map (fun y => d a y) ++ pairDists d (b :: t) with hrest
    have hmd : apMaxDist d (a :: b :: t) = some (rest.foldl max (d a b)) := by
      rw [apMaxDist, if_pos hgt, hpd, foldMaxOpt_cons_none]
    set M := rest.foldl max (d a b) with hM
    have hM0 : M ≠ 0 := by
      rw [hmd] at h
      intro hc
      exact h (by rw [hc])
    have hscan : ctScan (pairDists d (a :: b :: t)) (false, 0)
        = ((pairDists d (a :: b :: t)).any (fun x => decide (1000 ≤ x)),
           (pairDists d (a :: b :: t)).foldl max 0) := by
      rw [ctScan_eq]
      simp
    have hfold0 : (pairDists d (a :: b :: t)).foldl max 0 = max 0 M := by
      rw [hpd]
      simp only [List.foldl_cons]
      rw [hM]
      exact foldl_max_init_max rest 0 (d a b)
    have hany : ((pairDists d (a :: b :: t)).any (fun x => decide (1000 ≤ x)) = true)
        ↔ 1000 ≤ M := by
      rw [hpd, hM]
      exact any_ge_iff_foldl_max (d a b) rest
    rw [ctCls, if_neg hlen, apCls]
    rw [hscan, hfold0, hmd]
    simp only [ne_eq, hM0, not_false_eq_true, if_true]
    have hmax : (max (0 : ℚ) M ≤ 300) ↔ (M ≤ 300) := by
      rw [max_le_iff]
      exact ⟨fun hc => hc.2, fun hc => ⟨by norm_num, hc⟩⟩
    by_cases h1000 : 1000 ≤ M
    · rw [if_pos (show ((pairDists d (a :: b :: t)).any (fun x => decide (1000 ≤ x)) = true)
          from hany.mpr h1000),
        if_pos (show M ≥ 1000 from h1000)]
    · rw [if_neg (show ¬ ((pairDists d (a :: b :: t)).any (fun x => decide (1000 ≤ x)) = true)
          from fun hc => h1000 (hany.mp hc)),
        if_neg (show ¬ M ≥ 1000 from h1000)]
      by_cases h300 : M ≤ 300
      · rw [if_pos (hmax.mpr h300), if_pos h300]
      · rw [if_neg (fun hc => h300 (hmax.mp hc)), if_neg h300]

/-- C2: whenever the maximum pairwise distance of a group is not
exactly `0` (in particular on every group with fewer than two
detections, where it is `None`), the flag-based formulation of
`co_traveler_analysis.py` and the single-running-maximum formulation of
`AccessPointClassifier.classify` assign the same final label.  The two
formulations do diverge at a maximum of exactly `0`, so the claimed
unconditional equivalence had to be weakened by that one case. -/
theorem flag_formulation_agrees_with_running_max (d : Coord → Coord → ℚ)
    (rows : List Detection)
    (h : apMaxDist d (rows.map (fun r => r.coord)) ≠ some 0) :
    (ct_classify_group d rows).cls = (ap_classify_group d rows).cls := by
  rw [ct_classify_group_cls, ap_classify_group_cls]
  exact ctCls_eq_apCls d (rows.map (fun r => r.coord)) h

/-- Sample two-detection group whose points are distinct, used to
instantiate the hypotheses of the formulation-agreement theorem. -/
def demoRowsApart : List Detection :=
  [⟨(0, 0), some 0, some (-50)⟩, ⟨(20, 0), some 1, some (-60)⟩]

/-- Witness for the amended equivalence of C2: a concrete two-point group
with nonzero spread on which both formulations yield the same label. -/
theorem flag_formulation_agrees_with_running_max_witness :
    (apMaxDist sqDist (demoRowsApart.map (fun r => r.coord)) ≠ some 0) ∧
    (ct_classify_group sqDist demoRowsApart).cls
      = (ap_classify_group sqDist demoRowsApart).cls :=
  ⟨by norm_num [demoRowsApart, apMaxDist, pairDists, pairs, foldMaxOpt, sqDist],
   flag_formulation_agrees_with_running_max sqDist demoRowsApart
     (by norm_num [demoRowsApart, apMaxDist, pairDists, pairs, foldMaxOpt, sqDist])⟩

/-- Sample group of two detections at identical coordinates. -/
def demoRowsSame : List Detection :=
  [⟨(7, 7), some 0, none⟩, ⟨(7, 7), some 1, none⟩]

/-- Counterexample to C2 as stated: on a group of two detections at
identical coordinates (maximum pairwise distance exactly `0`), the flag
formulation classifies static while the running-maximum code classifies
unknown, because the Python guard `if max_dist:` is falsy at `0.0`. -/
theorem flag_formulation_diverges_at_zero_spread :
    (ct_classify_group sqDist demoRowsSame).cls = Label.static ∧
    (ap_classify_group sqDist demoRowsSame).cls = Label.unknown ∧
    (ct_classify_group sqDist demoRowsSame).cls
      ≠ (ap_classify_group sqDist demoRowsSame).cls := by
  have h1 : (ct_classify_group sqDist demoRowsSame).cls = Label.static := by
    norm_num [demoRowsSame, ct_classify_group, pairDists, pairs, ctScan, sqDist,
      pyMin, pyMax]
  have h2 : (ap_classify_group sqDist demoRowsSame).cls = Label.unknown := by
    norm_num [demoRowsSame, ap_classify_group, apMaxDist, pairDists, pairs, foldMaxOpt,
      sqDist, seriesMin, seriesMax, compute_static_ap_coords, apWeight]
  refine ⟨h1, h2, ?_⟩
  rw [h1, h2]
  exact fun hc => Label.noConfusion hc

/-- Sample group of two detections at one point, distinct from the
formulation-divergence sample. -/
def demoRowsZero : List Detection :=
  [⟨(10, 20), some 0, some (-50)⟩, ⟨(10, 20), some 1, some (-50)⟩]

/-- Sample singleton group. -/
def demoRowSingle : List Detection := [⟨(10, 20), some 0, some (-50)⟩]

/-- C1: the failing input for the code bug.  On a two-detection group at
identical coordinates (maximum pairwise spread exactly `0`),
`AccessPointClassifier.classify` leaves the classification `unknown` —
the guard `if max_dist:` is falsy at the float `0.0` — although the
reference function of the spec (spread `≤ 300` inclusive, including `0`),
the docstring of the module itself ("Potential Static: if all records are
within 300m of each other"), and the sibling Step-5 classifier in
`co_traveler_analysis.py` all classify it static.  For a singleton
group the same code also reports `max_dist = None` where the spec
reference reports `0`. -/
theorem zero_spread_group_code_bug :
    (ap_classify_group sqDist demoRowsZero).cls = Label.unknown ∧
    (ct_classify_group sqDist demoRowsZero).cls = Label.static ∧
    refClassify sqDist (demoRowsZero.map (fun r => r.coord)) = (Label.static, 0) ∧
    (ap_classify_group sqDist demoRowSingle).maxDist = none ∧
    (ct_classify_group sqDist demoRowSingle).groupMax = 0 ∧
    refClassify sqDist (demoRowSingle.map (fun r => r.coord)) = (Label.unknown, 0) := by
  norm_num [demoRowsZero, demoRowSingle, ap_classify_group, ct_classify_group,
    refClassify, apMaxDist, pairDists, pairs, foldMaxOpt, ctScan, sqDist, seriesMin,
    seriesMax, pyMin, pyMax, compute_static_ap_coords, apWeight]

/-- C4 (amended): in `AccessPointClassifier.classify` the `lat`/`lon`
columns are cleared exactly for CO_TRAVELER groups; STATIC and UNKNOWN
groups both keep the computed weighted-centroid coordinates, so
`best_location` is absent iff the label is co-traveler, not iff it is
non-static as claimed. -/
theorem ap_best_location_absent_iff_cotraveler (d : Coord → Coord → ℚ)
    (rows : List Detection) :
    (ap_classify_group d rows).loc = none
      ↔ (ap_classify_group d rows).cls = Label.cotraveler := by
  simp only [ap_classify_group]
  rcases hmd : apMaxDist d (rows.map (fun r => r.coord)) with _ | m
  · simp [hmd]
  · simp only [hmd]
    by_cases h0 : m = 0
    · simp [h0]
    · simp only [h0, ne_eq, not_false_eq_true, if_true]
      by_cases h1 : m ≥ 1000
      · simp [h1]
      · by_cases h3 : m ≤ 300 <;> simp [h1, h3]

/-- Sample two-detection group with spread in the gap band
(`300 < spread < 1000`). -/
def demoRowsGap : List Detection :=
  [⟨(0, 0), some 0, some (-40)⟩, ⟨(20, 0), some 1, some (-40)⟩]

/-- Counterexample to C4 as stated: a group with spread `400` (gap
band) is classified UNKNOWN, yet its Classification Result still
carries a present, non-empty `best_location` — the weighted centroid
`(10, 0)` — contradicting "absent/empty for everything but STATIC". -/
theorem unknown_group_best_location_present :
    (ap_classify_group sqDist demoRowsGap).cls = Label.unknown ∧
    (ap_classify_group sqDist demoRowsGap).loc = some (10, 0) := by
  norm_num [demoRowsGap, ap_classify_group, apMaxDist, pairDists, pairs, foldMaxOpt,
    sqDist, seriesMin, seriesMax, compute_static_ap_coords, apWeight]

/-- C9 (amended): re-running the clusterer on the produced centroids is
the identity precisely under a separation condition — when the points
fed to it are pairwise more than the merge threshold apart, every point
becomes its own singleton cluster (no further merging) and the
singleton centroids are the points themselves.  Without that condition
the claim fails: the centroids of two produced clusters can lie within the
threshold of each other and a second run merges them. -/
theorem cluster_records_identity_on_separated (d : Coord → Coord → ℚ) (thr : ℚ)
    (recs : ℕ → Coord) (l : List ℕ) (hnd : l.Nodup)
    (hsep : ∀ i ∈ l, ∀ j ∈ l, i ≠ j → thr < d (recs i) (recs j)) :
    cluster_records d thr recs l = l.map (fun i => [i]) ∧
    (cluster_records d thr recs l).map (centroid recs) = l.map recs := by
  have h := cluster_records_separated d thr recs l hnd hsep
  refine ⟨h, ?_⟩
  rw [h, List.map_map]
  exact List.map_congr_left (fun i _ => centroid_singleton recs i)

/-- Two sample points more than the (squared) threshold `2500` apart. -/
def demoSepRecs : ℕ → Coord := fun n => if n = 0 then (0, 0) else (60, 0)

/-- Witness for the amended statement of C9: two points at squared distance
`3600 > 2500` stay two singleton clusters with unchanged centroids. -/
theorem cluster_records_identity_on_separated_witness :
    (([0, 1] : List ℕ).Nodup ∧
      (∀ i ∈ ([0, 1] : List ℕ), ∀ j ∈ ([0, 1] : List ℕ), i ≠ j →
        (2500 : ℚ) < sqDist (demoSepRecs i) (demoSepRecs j))) ∧
    cluster_records sqDist 2500 demoSepRecs [0, 1]
      = ([0, 1] : List ℕ).map (fun i => [i]) ∧
    (cluster_records sqDist 2500 demoSepRecs [0, 1]).map (centroid demoSepRecs)
      = ([0, 1] : List ℕ).map demoSepRecs := by
  have hsep : ∀ i ∈ ([0, 1] : List ℕ), ∀ j ∈ ([0, 1] : List ℕ), i ≠ j →
      (2500 : ℚ) < sqDist (demoSepRecs i) (demoSepRecs j) := by
    intro i hi j hj hne
    fin_cases hi <;> fin_cases hj <;>
      first
        | exact absurd rfl hne
        | norm_num [demoSepRecs, sqDist]
  exact ⟨⟨by decide, hsep⟩,
    cluster_records_identity_on_separated sqDist 2500 demoSepRecs [0, 1] (by decide) hsep⟩

/-- Three sample points: the seed is isolated, the other two merge into
a cluster whose centroid drifts back within the threshold of the
seed. -/
def demoDriftRecs : ℕ → Coord := fun n =>
  if n = 0 then (0, 0) else if n = 1 then (48, 20) else (48, -20)

/-- The two centroids the first clustering pass produces on
`demoDriftRecs`. -/
def demoDriftCents : ℕ → Coord := fun n => if n = 0 then (0, 0) else (48, 0)

/-- Counterexample to C9 as stated: with threshold `2500` (squared
surrogate of 50 m), points `(0,0)`, `(48,20)`, `(48,-20)` cluster into
`[[0], [1, 2]]` with centroids `(0,0)` and `(48,0)` — each member of the
second cluster is farther than the threshold from the first centroid,
but the merged centroid is not (`48² = 2304 ≤ 2500`) — so re-running the
clusterer on the two centroids merges them into a single cluster instead
of reproducing them. -/
theorem cluster_records_not_idempotent :
    (cluster_records sqDist 2500 demoDriftRecs [0, 1, 2]).map (centroid demoDriftRecs)
      = [(0, 0), (48, 0)] ∧
    demoDriftCents 0 = (0, 0) ∧ demoDriftCents 1 = (48, 0) ∧
    cluster_records sqDist 2500 demoDriftCents [0, 1] = [[0, 1]] := by
  have s1 : scanPass
      (fun i => decide (sqDist (demoDriftRecs 0) (demoDriftRecs i) ≤ 2500)) [1, 2]
      = ([], [1, 2]) := by norm_num [scanPass, demoDriftRecs, sqDist]
  have g1 : growCluster sqDist 2500 demoDriftRecs [0] (demoDriftRecs 0) [1, 2]
      = ([0], [1, 2]) := by
    rw [growCluster, s1]
    simp
  have s2 : scanPass
      (fun i => decide (sqDist (demoDriftRecs 1) (demoDriftRecs i) ≤ 2500)) [2]
      = ([2], []) := by norm_num [scanPass, demoDriftRecs, sqDist]
  have g2 : growCluster sqDist 2500 demoDriftRecs [1] (demoDriftRecs 1) [2]
      = ([1, 2], []) := by
    rw [growCluster, s2]
    norm_num
    rw [growCluster]
    simp [scanPass]
  have c1 : cluster_records sqDist 2500 demoDriftRecs [0, 1, 2] = [[0], [1, 2]] := by
    rw [cluster_records, g1, cluster_records, g2, cluster_records]
  have s4 : scanPass
      (fun i => decide (sqDist (demoDriftCents 0) (demoDriftCents i) ≤ 2500)) [1]
      = ([1], []) := by norm_num [scanPass, demoDriftCents, sqDist]
  have g3 : growCluster sqDist 2500 demoDriftCents [0] (demoDriftCents 0) [1]
      = ([0, 1], []) := by
    rw [growCluster, s4]
    norm_num
    rw [growCluster]
    simp [scanPass]
  have c2 : cluster_records sqDist 2500 demoDriftCents [0, 1] = [[0, 1]] := by
    rw [cluster_records, g3, cluster_records]
  refine ⟨?_, by norm_num [demoDriftCents], by norm_num [demoDriftCents], c2⟩
  rw [c1]
  norm_num [centroid, demoDriftRecs]

theorem apWeight_eq_refWeight (r : Option ℚ) : apWeight r = refWeight 0 r := by
  cases r
  · norm_num [apWeight, refWeight]
  · rfl

theorem aggWeight_eq_refWeight (r : Option ℚ) : aggWeight r = refWeight 1 r := by
  cases r <;> rfl

theorem ap_coords_eq_ref (rows : List (Coord × Option ℚ)) :
    compute_static_ap_coords rows = refStaticCoords 0 rows := by
  simp only [compute_static_ap_coords, refStaticCoords, apWeight_eq_refWeight]
  by_cases ht : (rows.map (fun pr => refWeight 0 pr.2)).sum = 0
  · simp [ht]
  · simp [ht]

theorem agg_coords_eq_ref (rows : List (Coord × Option ℚ)) :
    static_aggregate_coords rows = refStaticCoords 1 rows := by
  simp only [static_aggregate_coords, refStaticCoords, aggWeight_eq_refWeight]
  have hnn : (0 : ℚ) ≤ (rows.map (fun pr => refWeight 1 pr.2)).sum := by
    apply List.sum_nonneg
    intro x hx
    rcases List.mem_map.mp hx with ⟨pr, _, rfl⟩
    cases hpr : pr.2
    · norm_num [refWeight]
    · simp only [refWeight]
      exact le_max_left 0 _
  by_cases ht : (rows.map (fun pr => refWeight 1 pr.2)).sum = 0
  · rw [if_neg (by rw [ht]; exact lt_irrefl 0), if_pos ht]
  · rw [if_pos (lt_of_le_of_ne hnn (Ne.symm ht)), if_neg ht]

/-- C6: the location estimator matches the specified weighted-centroid
formula under both fallback policies found in the source —
`AccessPointClassifier._compute_static_ap_coords` (missing RSSI filled
with `-130`, i.e. fallback weight `0`) and the `static_aggregate.py`
Step-4 average (fallback weight `1`) — including the zero-total-weight
fallback to the unweighted mean; and in particular two detections with
RSSI `-30` and `-130` (weights `100` and `0`) place `best_location`
exactly at the `-30` dBm point. -/
theorem static_location_estimator_spec (rows : List (Coord × Option ℚ))
    (p1 p2 : Coord) :
    compute_static_ap_coords rows = refStaticCoords 0 rows ∧
    static_aggregate_coords rows = refStaticCoords 1 rows ∧
    compute_static_ap_coords [(p1, some (-30)), (p2, some (-130))] = p1 := by
  refine ⟨ap_coords_eq_ref rows, agg_coords_eq_ref rows, ?_⟩
  have h30 : apWeight (some (-30)) = 100 := by norm_num [apWeight]
  have h130 : apWeight (some (-130)) = 0 := by norm_num [apWeight]
  simp only [compute_static_ap_coords, List.map_cons, List.map_nil, h30, h130,
    List.sum_cons, List.sum_nil]
  norm_num

theorem validRows_filter_idem (rows : List FlagRow) :
    validRows (rows.filter (fun r => r.time.isSome)) = validRows rows := by
  simp [validRows, List.filter_filter]

theorem flagGroup_filter_idem (d : Coord → Coord → ℚ) (rows : List FlagRow) :
    flagGroup d (rows.filter (fun r => r.time.isSome)) = flagGroup d rows := by
  funext mac
  simp only [flagGroup, validRows_filter_idem]

/-- C5 (amended): how each pipeline really treats timestamps.  In
`AccessPointClassifier.classify`, `first_seen`/`last_seen` are the
pandas min/max over exactly the parseable timestamps (absent iff none
parse), and rewriting every timestamp arbitrarily — in particular, to
unparseable — never changes the label of either classifier, so an
unparseable timestamp does not invalidate a detection there.  But in
`co_traveler_analysis.py`, the builtin `min`/`max` over the raw list
return `NaT` whenever the first timestamp is unparseable (and
the parseable extremum only when the head parses), and in
`flagged_signals_analysis.py` rows with unparseable timestamps are
dropped before grouping, so they are excluded from spread and flagging
as well. -/
theorem timestamp_handling_amended (d : Coord → Coord → ℚ) :
    (∀ rows : List Detection,
        (ap_classify_group d rows).firstSeen = parseMin (rows.map (fun r => r.time)) ∧
        (ap_classify_group d rows).lastSeen = parseMax (rows.map (fun r => r.time))) ∧
    (∀ (rows : List Detection) (f : Detection → Option ℚ),
        (ap_classify_group d (rows.map (fun r => { r with time := f r }))).cls
          = (ap_classify_group d rows).cls ∧
        (ct_classify_group d (rows.map (fun r => { r with time := f r }))).cls
          = (ct_classify_group d rows).cls) ∧
    (∀ ts : List (Option ℚ), pyMin (none :: ts) = none ∧ pyMax (none :: ts) = none) ∧
    (∀ (a : ℚ) (ts : List (Option ℚ)),
        pyMin (some a :: ts) = some ((ts.filterMap id).foldl min a) ∧
        pyMax (some a :: ts) = some ((ts.filterMap id).foldl max a)) ∧
    (∀ rows : List FlagRow,
        flaggedAnalyze d rows = flaggedAnalyze d (rows.filter (fun r => r.time.isSome))) := by
  refine ⟨?_, ?_, ?_, ?_, ?_⟩
  · intro rows
    constructor
    · simp only [ap_classify_group]
      exact seriesMin_eq_parseMin (rows.map (fun r => r.time))
    · simp only [ap_classify_group]
      exact seriesMax_eq_parseMax (rows.map (fun r => r.time))
  · intro rows f
    have hco : (rows.map (fun r => { r with time := f r })).map (fun r => r.coord)
        = rows.map (fun r => r.coord) := by
      rw [List.map_map]
      exact List.map_congr_left (fun r _ => rfl)
    constructor
    · rw [ap_classify_group_cls, ap_classify_group_cls, hco]
    · rw [ct_classify_group_cls, ct_classify_group_cls, hco]
  · exact fun ts => ⟨pyMin_none_head ts, pyMax_none_head ts⟩
  · exact fun a ts => ⟨pyMin_some_head a ts, pyMax_some_head a ts⟩
  · intro rows
    simp only [flaggedAnalyze, validRows_filter_idem, flagGroup_filter_idem]

/-- Two detections of one MAC, the distant one with an unparseable
timestamp. -/
def demoFlagBad : List FlagRow :=
  [⟨"m", "s", some 0, (0, 0)⟩, ⟨"m", "s", none, (30, 0)⟩]

/-- The same two detections with both timestamps parseable. -/
def demoFlagGood : List FlagRow :=
  [⟨"m", "s", some 0, (0, 0)⟩, ⟨"m", "s", some 0, (30, 0)⟩]

/-- Counterexample to C5 as stated: in `flagged_signals_analysis.py` a
detection with an unparseable timestamp is not merely excluded from
first/last-seen — it is excluded from the spread computation too.  The
full spread of the group is `900 ≥ 300`, yet with the timestamp of the
distant row unparseable the MAC is not flagged at all; making that
timestamp parseable flags it. -/
theorem unparseable_timestamp_excluded_from_spread :
    flaggedAnalyze sqDist demoFlagBad = [] ∧
    compute_max_distance sqDist (demoFlagBad.map (fun r => r.coord)) = 900 ∧
    flaggedAnalyze sqDist demoFlagGood ≠ [] := by
  refine ⟨?_, ?_, ?_⟩
  · norm_num [demoFlagBad, flaggedAnalyze, validRows, flagGroup, compute_max_distance,
      pairDists, pairs, sqDist, List.filter, List.dedup, List.filterMap]
  · norm_num [demoFlagBad, compute_max_distance, pairDists, pairs, sqDist]
  · norm_num [demoFlagGood, flaggedAnalyze, validRows, flagGroup, compute_max_distance,
      pairDists, pairs, sqDist, confidenceScore, List.filter, List.dedup, List.filterMap]

theorem confidenceScore_eq_and_bounds (n : ℕ) (dm t : ℚ) (ht : 0 ≤ t) :
    confidenceScore n dm t
      = 100 * (3/10 * min ((n : ℚ) / 20) 1
          + 2/5 * min (max ((dm - 300) / 9700) 0) 1
          + 3/10 * min (t / 12) 1) ∧
    0 ≤ confidenceScore n dm t ∧ confidenceScore n dm t ≤ 100 := by
  have ha0 : (0 : ℚ) ≤ min ((n : ℚ) / 20) 1 :=
    le_min (by positivity) (by norm_num)
  have ha1 : min ((n : ℚ) / 20) 1 ≤ 1 := min_le_right _ _
  have hb0 : (0 : ℚ) ≤ min (max ((dm - 300) / 9700) 0) 1 :=
    le_min (le_max_right _ _) (by norm_num)
  have hb1 : min (max ((dm - 300) / 9700) 0) 1 ≤ 1 := min_le_right _ _
  have hc0 : (0 : ℚ) ≤ min (t / 12) 1 :=
    le_min (by positivity) (by norm_num)
  have hc1 : min (t / 12) 1 ≤ 1 := min_le_right _ _
  refine ⟨by rw [confidenceScore]; ring, ?_, ?_⟩
  · rw [confidenceScore]
    nlinarith
  · rw [confidenceScore]
    nlinarith

theorem flagGroup_spec (d : Coord → Coord → ℚ) (rows : List FlagRow) (mac : String)
    (r : FlagRecord) (h : flagGroup d rows mac = some r) :
    r.mac = mac ∧
    r.detections = ((validRows rows).filter (fun x => x.mac = mac)).length ∧
    r.ssids
      = (((validRows rows).filter (fun x => x.mac = mac)).map (fun x => x.ssid)).dedup ∧
    r.maxDist
      = compute_max_distance d
          (((validRows rows).filter (fun x => x.mac = mac)).map (fun x => x.coord)) ∧
    r.confidence = confidenceScore r.detections r.maxDist r.timeRange ∧
    300 ≤ r.maxDist ∧ 0 ≤ r.timeRange := by
  simp only [flagGroup] at h
  split at h
  · exact absurd h (by simp)
  · rename_i t ts heq
    split at h
    · exact absurd h (by simp)
    · rename_i hmd
      injection h with h
      subst h
      refine ⟨rfl, rfl, rfl, rfl, rfl, le_of_not_lt hmd, ?_⟩
      have h1 : ts.foldl min t ≤ t := foldl_min_le_init ts t
      have h2 : t ≤ ts.foldl max t := init_le_foldl_max ts t
      have : (0 : ℚ) ≤ ts.foldl max t - ts.foldl min t := by linarith
      exact div_nonneg this (by norm_num)

/-- C3: every record the flagged-signals loop emits carries a
confidence equal to
`100 × (0.3·count_factor + 0.4·distance_factor + 0.3·time_factor)` in
the clamped form given in the claim, and that value always lies in `[0, 100]`;
the emitted spread is moreover at or above the 300 m gate and the time
range is non-negative. -/
theorem flagged_confidence_formula_and_bounds (d : Coord → Coord → ℚ)
    (rows : List FlagRow) (r : FlagRecord) (h : r ∈ flaggedAnalyze d rows) :
    r.confidence
      = 100 * (3/10 * min ((r.detections : ℚ) / 20) 1
          + 2/5 * min (max ((r.maxDist - 300) / 9700) 0) 1
          + 3/10 * min (r.timeRange / 12) 1) ∧
    0 ≤ r.confidence ∧ r.confidence ≤ 100 ∧ 300 ≤ r.maxDist ∧ 0 ≤ r.timeRange := by
  obtain ⟨mac, _, heq⟩ := List.mem_filterMap.mp h
  obtain ⟨_, _, _, _, hconf, h300, htr⟩ := flagGroup_spec d rows mac r heq
  obtain ⟨hform, hlo, hhi⟩ :=
    confidenceScore_eq_and_bounds r.detections r.maxDist r.timeRange htr
  exact ⟨by rw [hconf, hform], by rw [hconf]; exact hlo, by rw [hconf]; exact hhi,
    h300, htr⟩

theorem flagged_macs_nodup (d : Coord → Coord → ℚ) (rows : List FlagRow) :
    ((flaggedAnalyze d rows).map (fun x => x.mac)).Nodup := by
  have hgen : ∀ keys : List String, keys.Nodup →
      ((keys.filterMap (flagGroup d rows)).map (fun x => x.mac)).Nodup := by
    intro keys
    induction keys with
    | nil => simp
    | cons k ks ih =>
        intro hnd
        rcases List.nodup_cons.mp hnd with ⟨hk, hks⟩
        cases hfg : flagGroup d rows k with
        | none => simpa [List.filterMap_cons, hfg] using ih hks
        | some r =>
            simp only [List.filterMap_cons, hfg, List.map_cons, List.nodup_cons]
            refine ⟨?_, ih hks⟩
            intro hc
            rcases List.mem_map.mp hc with ⟨r2, hr2, hmac⟩
            rcases List.mem_filterMap.mp hr2 with ⟨k2, hk2, heq2⟩
            have h1 : r2.mac = k2 := (flagGroup_spec d rows k2 r2 heq2).1
            have h2 : r.mac = k := (flagGroup_spec d rows k r hfg).1
            apply hk
            rw [← h2, ← hmac, h1]
            exact hk2
  exact hgen _ (List.nodup_dedup _)

/-- C10: flagged records are keyed by MAC address alone — no MAC
produces two records, and for every emitted record the detection count,
distinct-SSID aggregate, and maximum spread are computed over all
surviving rows carrying that MAC, regardless of SSID, with the
confidence computed from those group-wide values. -/
theorem flagged_records_keyed_by_mac (d : Coord → Coord → ℚ) (rows : List FlagRow)
    (r : FlagRecord) (h : r ∈ flaggedAnalyze d rows) :
    ((flaggedAnalyze d rows).map (fun x => x.mac)).Nodup ∧
    r.detections = ((validRows rows).filter (fun x => x.mac = r.mac)).length ∧
    r.ssids
      = (((validRows rows).filter (fun x => x.mac = r.mac)).map (fun x => x.ssid)).dedup ∧
    r.maxDist
      = compute_max_distance d
          (((validRows rows).filter (fun x => x.mac = r.mac)).map (fun x => x.coord)) ∧
    r.confidence = confidenceScore r.detections r.maxDist r.timeRange := by
  obtain ⟨mac, _, heq⟩ := List.mem_filterMap.mp h
  obtain ⟨hm, hdet, hss, hmd, hconf, _, _⟩ := flagGroup_spec d rows mac r heq
  subst hm
  exact ⟨flagged_macs_nodup d rows, hdet, hss, hmd, hconf⟩

/-- Two same-MAC detections 2 hours and (squared) 400 m apart. -/
def demoConfRows : List FlagRow :=
  [⟨"m", "s", some 0, (0, 0)⟩, ⟨"m", "s", some 7200, (20, 0)⟩]

/-- The record the flagged-signals loop emits for `demoConfRows`. -/
def demoConfRec : FlagRecord := ⟨"m", ["s"], 2, 400, 2, 0, 7200, 816/97⟩

/-- Witness for C3: the confidence-formula theorem applied to a
concrete flagged record. -/
theorem flagged_confidence_formula_and_bounds_witness :
    demoConfRec ∈ flaggedAnalyze sqDist demoConfRows ∧
    (demoConfRec.confidence
      = 100 * (3/10 * min ((demoConfRec.detections : ℚ) / 20) 1
          + 2/5 * min (max ((demoConfRec.maxDist - 300) / 9700) 0) 1
          + 3/10 * min (demoConfRec.timeRange / 12) 1) ∧
    0 ≤ demoConfRec.confidence ∧ demoConfRec.confidence ≤ 100 ∧
    300 ≤ demoConfRec.maxDist ∧ 0 ≤ demoConfRec.timeRange) := by
  have hmem : demoConfRec ∈ flaggedAnalyze sqDist demoConfRows := by
    norm_num [demoConfRows, demoConfRec, flaggedAnalyze, validRows, flagGroup,
      compute_max_distance, pairDists, pairs, confidenceScore, sqDist,
      List.filter, List.dedup, List.filterMap]
  exact ⟨hmem, flagged_confidence_formula_and_bounds sqDist demoConfRows demoConfRec hmem⟩

/-- Two detections sharing one MAC but carrying different SSIDs. -/
def demoMacRows : List FlagRow :=
  [⟨"m", "a", some 0, (0, 0)⟩, ⟨"m", "b", some 3600, (20, 0)⟩]

/-- The single record the flagged-signals loop emits for `demoMacRows`:
both SSIDs are aggregated under the one MAC key. -/
def demoMacRec : FlagRecord := ⟨"m", ["a", "b"], 2, 400, 1, 0, 3600, 1147/194⟩

/-- Witness for C10: the MAC-keying theorem applied to a concrete group
whose two detections differ in SSID yet land in one record. -/
theorem flagged_records_keyed_by_mac_witness :
    demoMacRec ∈ flaggedAnalyze sqDist demoMacRows ∧
    (((flaggedAnalyze sqDist demoMacRows).map (fun x => x.mac)).Nodup ∧
    demoMacRec.detections
      = ((validRows demoMacRows).filter (fun x => x.mac = demoMacRec.mac)).length ∧
    demoMacRec.ssids
      = (((validRows demoMacRows).filter (fun x => x.mac = demoMacRec.mac)).map
          (fun x => x.ssid)).dedup ∧
    demoMacRec.maxDist
      = compute_max_distance sqDist
          (((validRows demoMacRows).filter (fun x => x.mac = demoMacRec.mac)).map
            (fun x => x.coord)) ∧
    demoMacRec.confidence
      = confidenceScore demoMacRec.detections demoMacRec.maxDist demoMacRec.timeRange) := by
  have hdd : (["a", "b"] : List String).dedup = ["a", "b"] := by decide
  have hmem : demoMacRec ∈ flaggedAnalyze sqDist demoMacRows := by
    norm_num [demoMacRows, demoMacRec, flaggedAnalyze, validRows, flagGroup,
      compute_max_distance, pairDists, pairs, confidenceScore, sqDist, hdd,
      List.filter, List.filterMap]
  exact ⟨hmem, flagged_records_keyed_by_mac sqDist demoMacRows demoMacRec hmem⟩
